import Mathlib

/-!
Verification development for the i18n-cli extraction/replacement engine.

This file gives a shallow embedding, in Lean 4, of the core of the
`@onwello/i18n-cli` repository:

* the extraction engine (`src/utils/extractor.ts`, class `TranslationExtractor`):
  the five default text patterns, per-file extraction, key generation,
  deduplication and service grouping;
* the replacement engine (`src/utils/replacer.ts`, class `TranslationReplacer`):
  the reverse text-to-key lookup, the five in-order substitution patterns,
  and the dry-run / backup write discipline;
* the template generator (`src/utils/generator.ts`, class `TranslationGenerator`):
  grouping by service and the per-language file writes.

The TypeScript code matches text with JavaScript regular expressions.  All
regular expressions used by the repository are built from a small set of
constructs: literal character runs, single-character classes, greedy
counted repetition of a character class, optional non-capturing groups and
(non-nested) capturing groups.  The embedding therefore defines a small
backtracking matcher over exactly these constructs, with JavaScript's
leftmost-match / greedy-first preference order, and each regular expression
of the source is transliterated into this item language.

File contents and strings are modelled as Lean `String` / `List Char`
(JavaScript string indices are UTF-16 units; all inputs considered here are
ASCII, where the two coincide).  File-system effects are modelled as the
list of (path, content) writes a call would issue; `process.exit` is
modelled as an explicit outcome constructor.
-/

namespace I18n

/-! ### Character classes of the JavaScript regular expressions

`jsWordChar` is JavaScript `\w` (ASCII letters, digits, underscore) and
`jsSpaceChar` is the ASCII part of JavaScript `\s`.  `quoteChar` is the
class `['"\x60]` (single quote, double quote, backtick) used by every
string-literal pattern in the source. -/

def jsWordChar (c : Char) : Bool :=
  c.isAlpha || c.isDigit || c == '_'

def jsSpaceChar (c : Char) : Bool :=
  c == ' ' || c == '\t' || c == '\n' || c == '\r' || c == '\x0b' || c == '\x0c'

def backtick : Char := '\x60'

def quoteChar (c : Char) : Bool :=
  c == '\'' || c == '\x22' || c == backtick

/-! ### A small backtracking regex matcher

`RItem` is one item of a regular expression, in sequence form.  All
regular expressions in the repository quantify only single-character
classes, so greedy repetition is over a class; groups (optional and
capturing) contain item sequences and are never nested inside another
capturing group in any pattern of the source. -/

inductive RFlat where
  /-- a literal run of characters (`throw new ` …) -/
  | lit : List Char → RFlat
  /-- exactly one character of a class (`['"\x60]` …) -/
  | cls : (Char → Bool) → RFlat
  /-- `n` or more characters of a class, greedy (`\w+`, `[^}]*`, `[^'"]{10,}`) -/
  | repGe : (Char → Bool) → Nat → RFlat

/-- One item of a regular expression in sequence form.  Every group
(optional or capturing) of every regular expression in the repository
contains only flat items — no group is nested inside another — so groups
carry flat sequences. -/
inductive RItem where
  | flat : RFlat → RItem
  /-- optional non-capturing group, greedy (`(?:...)?`) -/
  | opt : List RFlat → RItem
  /-- capturing group (`(...)`) -/
  | cap : List RFlat → RItem

/-- Short-hands used when transliterating the source regexes. -/
def rlit (s : String) : RItem := .flat (.lit s.data)

def rlitc (l : List Char) : RItem := .flat (.lit l)

def rcls (c : Char → Bool) : RItem := .flat (.cls c)

def rrep (c : Char → Bool) (n : Nat) : RItem := .flat (.repGe c n)

/-- The candidate repetition counts `m, m-1, …, n` for a greedy `{n,}`
repetition whose maximal possible count is `m` (empty if `m < n`),
in JavaScript's longest-first backtracking order. -/
def greedyCounts (m n : Nat) : List Nat :=
  (List.range' n (m + 1 - n)).reverse

/-- All ways a sequence of flat items can match a prefix of `s`, as the
remaining inputs, in JavaScript's backtracking preference order. -/
def matchFlatSeq : List RFlat → List Char → List (List Char)
  | [], s => [s]
  | .lit l :: rest, s =>
      if l.isPrefixOf s then matchFlatSeq rest (s.drop l.length) else []
  | .cls c :: rest, s =>
      match s with
      | [] => []
      | ch :: s' => if c ch then matchFlatSeq rest s' else []
  | .repGe c n :: rest, s =>
      (greedyCounts (s.takeWhile c).length n).flatMap fun k =>
        matchFlatSeq rest (s.drop k)

/-- All ways a sequence of items can match a prefix of `s`, as
`(captured groups, remaining input)` pairs, listed in JavaScript's
backtracking preference order (the head is the match JavaScript picks). -/
def matchSeq : List RItem → List Char → List (List (List Char) × List Char)
  | [], s => [([], s)]
  | .flat f :: rest, s =>
      (matchFlatSeq [f] s).flatMap fun s' => matchSeq rest s'
  | .opt g :: rest, s =>
      ((matchFlatSeq g s).flatMap fun s' => matchSeq rest s') ++ matchSeq rest s
  | .cap g :: rest, s =>
      (matchFlatSeq g s).flatMap fun s' =>
        (matchSeq rest s').map fun qr =>
          (s.take (s.length - s'.length) :: qr.1, qr.2)

/-- The match (matched text, captures) of a pattern at the start of `s`,
if any — the head of the preference-ordered match list. -/
def matchAt (pat : List RItem) (s : List Char) : Option (List Char × List (List Char)) :=
  match matchSeq pat s with
  | [] => none
  | (caps, rest) :: _ => some (s.take (s.length - rest.length), caps)

/-- Leftmost match of a pattern in `s`: `(offset, matched text, captures)`.
`off` accumulates the offset of `s` inside the original string. -/
def searchFrom (pat : List RItem) : List Char → Nat → Option (Nat × List Char × List (List Char))
  | s, off =>
    match matchAt pat s with
    | some (m, caps) => some (off, m, caps)
    | none =>
      match s with
      | [] => none
      | _ :: s' => searchFrom pat s' (off + 1)

/-- The global `regex.exec` loop of `extractFromFile`: repeatedly take the
leftmost match and continue searching after its end.  `fuel` makes the
function total; every pattern of the source consumes at least one
character per match, so `length + 1` fuel is never exhausted (a
zero-length match would loop forever in the JavaScript source). -/
def allMatchesAux (pat : List RItem) : Nat → List Char → Nat → List (Nat × List Char × List (List Char))
  | 0, _, _ => []
  | fuel + 1, s, base =>
    match searchFrom pat s 0 with
    | none => []
    | some (off, m, caps) =>
      (base + off, m, caps) ::
        allMatchesAux pat fuel (s.drop (off + m.length)) (base + off + m.length)

def allMatches (pat : List RItem) (s : List Char) : List (Nat × List Char × List (List Char)) :=
  allMatchesAux pat (s.length + 1) s 0

/-- Leftmost match of a pattern in `s`, split as
`(text before, matched text, captures, text after)`. -/
def splitFirstMatch (pat : List RItem) (s : List Char) :
    Option (List Char × List Char × List (List Char) × List Char) :=
  match searchFrom pat s 0 with
  | none => none
  | some (off, m, caps) => some (s.take off, m, caps, s.drop (off + m.length))

/-- JavaScript `String.replace` with a global regex and a replacement
function, also returning how many matches the function actually changed
(the `result !== match` count of `replaceInFile`).  On a zero-length match
JavaScript advances one character; no pattern of the source matches the
empty string. -/
def regexReplaceAux (pat : List RItem) (repl : List Char → List (List Char) → List Char) :
    Nat → List Char → List Char × Nat
  | 0, s => (s, 0)
  | fuel + 1, s =>
    match splitFirstMatch pat s with
    | none => (s, 0)
    | some (pre, m, caps, post) =>
      let r := repl m caps
      let c : Nat := if r == m then 0 else 1
      if m.isEmpty then
        match post with
        | [] => (pre ++ r, c)
        | ch :: post' =>
          let t := regexReplaceAux pat repl fuel post'
          (pre ++ r ++ ch :: t.1, c + t.2)
      else
        let t := regexReplaceAux pat repl fuel post
        (pre ++ r ++ t.1, c + t.2)

def regexReplace (pat : List RItem) (repl : List Char → List (List Char) → List Char)
    (s : List Char) : List Char × Nat :=
  regexReplaceAux pat repl (s.length + 1) s

/-- JavaScript `String.replace` with a non-global regex and a plain
replacement string (used inside the return-object substitution). -/
def regexReplaceFirst (pat : List RItem) (replStr : List Char) (s : List Char) : List Char :=
  match splitFirstMatch pat s with
  | none => s
  | some (pre, _, _, post) => pre ++ replStr ++ post

/-! ### The data model (`src/types`, interface `TranslationKey`)

One extracted unit.  `context` is only set when comment extraction is
requested (the extract command never requests it), `priority` and
`category` are the enrichments computed by `extractFromFile`; keys read
back from a persisted dataset may lack them, hence `Option`. -/

structure TranslationKey where
  key : String
  text : String
  type : String
  file : String
  line : Nat
  context : Option String := none
  priority : Option String := none
  category : Option String := none
  deriving DecidableEq, Repr

/-! ### Key generation (`extractor.ts`, `generateKey` and friends) -/

/-- JavaScript `String.prototype.split` with a single-character separator,
on character lists (`''.split('/') = ['']`, empty runs kept). -/
def splitOnSlash : List Char → List (List Char)
  | [] => [[]]
  | c :: cs =>
    let r := splitOnSlash cs
    if c == '/' then [] :: r
    else
      match r with
      | [] => [[c]]
      | h :: t => (c :: h) :: t

/-- `filePath.split(path.sep)` with the POSIX separator. -/
def splitPath (p : String) : List String := (splitOnSlash p.data).map String.mk

/-- The whitespace-run collapse of `.replace(/\s+/g, '_')`: every maximal
run of whitespace becomes a single underscore (`inRun` is true while inside
a whitespace run whose underscore was already emitted). -/
def collapseWsAux (inRun : Bool) : List Char → List Char
  | [] => []
  | c :: cs =>
    if jsSpaceChar c then
      if inRun then collapseWsAux true cs else '_' :: collapseWsAux true cs
    else c :: collapseWsAux false cs

def collapseWs (l : List Char) : List Char := collapseWsAux false l

/-- JavaScript `String.prototype.toUpperCase` on the ASCII strings at hand. -/
def upperStr (s : String) : String := String.mk (s.data.map Char.toUpper)

/-- JavaScript `String.prototype.toLowerCase` on the ASCII strings at hand. -/
def lowerStr (s : String) : String := String.mk (s.data.map Char.toLower)

/-- JavaScript `String.prototype.includes`: `strIncludes needle hay` is true
when `needle` occurs contiguously in `hay`. -/
def strIncludes (needle : List Char) : List Char → Bool
  | [] => needle.isEmpty
  | c :: t => needle.isPrefixOf (c :: t) || strIncludes needle t

/-- The `cleanText` computation of `generateKey`: strip characters that are
neither word characters nor whitespace (`.replace(/[^\w\s]/g, '')`),
collapse whitespace runs to single underscores, uppercase. -/
def cleanTextOf (text : String) : String :=
  upperStr (String.mk (collapseWs (text.data.filter fun c => jsWordChar c || jsSpaceChar c)))

/-- The service-name scan of `generateKey`: the first path segment equal to
one of the four service tokens; otherwise the segment before `src` when
`src` has a predecessor; otherwise the literal `UNKNOWN`. -/
def serviceNameOf (filePath : String) : String :=
  let pathParts := splitPath filePath
  match pathParts.find? (fun part =>
      part == "notification" || part == "auth" || part == "profile" || part == "location") with
  | some s => s
  | none =>
    match pathParts.findIdx? (fun part => part == "src") with
    | some srcIndex => if 0 < srcIndex then pathParts.getD (srcIndex - 1) "" else "UNKNOWN"
    | none => "UNKNOWN"

/-- Node `path.basename(filePath, '.ts')`: the final path segment, with a
trailing `.ts` removed unless the segment is exactly `.ts`. -/
def basenameStripTs (p : String) : String :=
  let base := (splitPath p).getLastD p
  if base.data != ".ts".data && ".ts".data.isSuffixOf base.data then
    String.mk (base.data.take (base.data.length - 3))
  else base

/-- JavaScript `base.replace('.', '_')`: a string (not regex) pattern
replaces only the first occurrence. -/
def replaceFirstDotAux : List Char → List Char
  | [] => []
  | c :: cs => if c == '.' then '_' :: cs else c :: replaceFirstDotAux cs

/-- The `fileName` computation of `generateKey`. -/
def fileBaseOf (p : String) : String :=
  String.mk (replaceFirstDotAux (basenameStripTs p).data)

/-- `generateKey(text, type, filePath)` of `extractor.ts`. -/
def generateKey (text type filePath : String) : String :=
  upperStr (serviceNameOf filePath) ++ "." ++ upperStr (fileBaseOf filePath) ++ "." ++
    type ++ "." ++ cleanTextOf text

/-- `determinePriority(text, type)` of `extractor.ts`. -/
def determinePriority (text type : String) : String :=
  if type == "EXCEPTION" || strIncludes "error".data (lowerStr text).data then "high"
  else if type == "RETURN_MESSAGE" || strIncludes "validation".data (lowerStr text).data then "medium"
  else "low"

/-- `determineCategory(filePath, type)` of `extractor.ts` (the `type`
parameter is unused in the source as well). -/
def determineCategory (filePath : String) (type : String) : String :=
  let pathParts := splitPath filePath
  match pathParts.findIdx? (fun part =>
      part == "auth" || part == "profile" || part == "notification" ||
        part == "location" || part == "bff") with
  | some serviceIndex => pathParts.getD serviceIndex ""
  | none =>
    match pathParts.findIdx? (fun part => part == "src") with
    | some srcIndex => if 0 < srcIndex then pathParts.getD (srcIndex - 1) "" else "unknown"
    | none => "unknown"

/-! ### The default extraction patterns (`extractor.ts`, `defaultPatterns`) -/

structure EPattern where
  items : List RItem
  type : String
  priority : Nat

def notQuote (c : Char) : Bool := !quoteChar c

/-- `/throw new \w+Exception\(['"\x60]([^'"\x60]+)['"\x60](?:,\s*\w+\.\w+)?\)/g` -/
def exceptionPattern : EPattern :=
  { items := [rlit "throw new ", rrep jsWordChar 1, rlit "Exception(",
      rcls quoteChar, .cap [.repGe notQuote 1], rcls quoteChar,
      .opt [.lit [','], .repGe jsSpaceChar 0, .repGe jsWordChar 1, .lit ['.'],
        .repGe jsWordChar 1],
      rlitc [')']]
    type := "EXCEPTION"
    priority := 1 }

def notCloseBrace (c : Char) : Bool := c != '\x7d'

/-- `/return\s*\{[^}]*message\s*:\s*['"\x60]([^'"\x60]+)['"\x60][^}]*\}/g` -/
def returnMessagePattern : EPattern :=
  { items := [rlit "return", rrep jsSpaceChar 0, rlitc ['\x7b'],
      rrep notCloseBrace 0, rlit "message", rrep jsSpaceChar 0, rlitc [':'],
      rrep jsSpaceChar 0, rcls quoteChar, .cap [.repGe notQuote 1], rcls quoteChar,
      rrep notCloseBrace 0, rlitc ['\x7d']]
    type := "RETURN_MESSAGE"
    priority := 2 }

def notBacktick (c : Char) : Bool := c != backtick

/-- `/errors\.push\(\x60([^\x60]+)\x60\)/g` -/
def templateLiteralPattern : EPattern :=
  { items := [rlitc ("errors.push(".data ++ [backtick]), .cap [.repGe notBacktick 1],
      rlitc [backtick, ')']]
    type := "TEMPLATE_LITERAL"
    priority := 3 }

/-- `/message\s*:\s*['"\x60]([^'"\x60]+)['"\x60]/g` -/
def messagePropertyPattern : EPattern :=
  { items := [rlit "message", rrep jsSpaceChar 0, rlitc [':'], rrep jsSpaceChar 0,
      rcls quoteChar, .cap [.repGe notQuote 1], rcls quoteChar]
    type := "MESSAGE_PROPERTY"
    priority := 4 }

/-- `/['"\x60]([^'"\x60]{10,})['"\x60]\s*\+\s*['"\x60]([^'"\x60]+)['"\x60]/g` -/
def concatenatedStringPattern : EPattern :=
  { items := [rcls quoteChar, .cap [.repGe notQuote 10], rcls quoteChar,
      rrep jsSpaceChar 0, rlitc ['+'], rrep jsSpaceChar 0,
      rcls quoteChar, .cap [.repGe notQuote 1], rcls quoteChar]
    type := "CONCATENATED_STRING"
    priority := 5 }

def defaultPatterns : List EPattern :=
  [exceptionPattern, returnMessagePattern, templateLiteralPattern,
    messagePropertyPattern, concatenatedStringPattern]

/-- Stable insertion used to model JavaScript's (stable)
`Array.prototype.sort`: an element is placed before the first
strictly-greater priority, after equal ones already in place. -/
def insertByPriority (x : EPattern) : List EPattern → List EPattern
  | [] => [x]
  | y :: ys => if x.priority ≤ y.priority then x :: y :: ys else y :: insertByPriority x ys

/-- `[...patterns].sort((a, b) => (a.priority || 0) - (b.priority || 0))`
(JavaScript `Array.prototype.sort` is stable; the default priorities are
distinct, so any correct sort agrees on them). -/
def sortPatterns (patterns : List EPattern) : List EPattern :=
  patterns.foldr insertByPriority []

def sortedDefaultPatterns : List EPattern := sortPatterns defaultPatterns

/-! ### Per-file extraction (`extractor.ts`, `extractFromFile`)

The extract command runs with `includeComments = false`, so the comment
context is `none`.  The call `this.validator.sanitizeOutput(text)` is the
injected `Validator`'s output sanitizer (identity when the
`security.sanitizeOutputs` configuration flag is off, and identity on any
text free of its suspicious patterns); it enters the embedding as the
function parameter `sanitize`. -/

/-- `match[1] || match[2] || match[0]` (absent or empty groups are falsy). -/
def pickText (m : List Char) (caps : List (List Char)) : List Char :=
  let g1 := caps.getD 0 []
  let g2 := caps.getD 1 []
  if g1 != [] then g1 else if g2 != [] then g2 else m

/-- `content.substring(0, match.index).split('\n').length`. -/
def countLines (content : List Char) (idx : Nat) : Nat :=
  (content.take idx).count '\n' + 1

def extractEntry (sanitize : String → String) (filePath : String) (content : List Char)
    (p : EPattern) (idx : Nat) (m : List Char) (caps : List (List Char)) : TranslationKey :=
  let text := String.mk (pickText m caps)
  { key := generateKey text p.type filePath
    text := sanitize text
    type := p.type
    file := filePath
    line := countLines content idx
    context := none
    priority := some (determinePriority text p.type)
    category := some (determineCategory filePath p.type) }

/-- One iteration of the `patterns.forEach` loop: the `while exec` loop over
one pattern, skipping candidates shorter than 3 or longer than 500
characters. -/
def patternSegment (sanitize : String → String) (filePath : String) (content : List Char)
    (p : EPattern) : List TranslationKey :=
  (allMatches p.items content).filterMap fun mt =>
    let text := pickText mt.2.1 mt.2.2
    if text.length < 3 || 500 < text.length then none
    else some (extractEntry sanitize filePath content p mt.1 mt.2.1 mt.2.2)

/-- The pure content-to-entries core of `extractFromFile` (the file read is
the caller's I/O; `results.push` across the pattern loop is concatenation). -/
def extractFromFileContent (sanitize : String → String) (patterns : List EPattern)
    (filePath content : String) : List TranslationKey :=
  patterns.flatMap (patternSegment sanitize filePath content.data)

/-- The batch loop of `extract` on its success path: files are processed
in fixed-size batches, each batch settled in order and its fulfilled
per-file results pushed onto `allStrings` in file enumeration order, so
the pre-deduplication dataset is the in-order concatenation of the
per-file extractions. -/
def extractBatchContent (sanitize : String → String) (patterns : List EPattern)
    (files : List (String × String)) : List TranslationKey :=
  files.flatMap fun f => extractFromFileContent sanitize patterns f.1 f.2

/-! ### Deduplication (`extractor.ts`, `removeDuplicates`) -/

/-- The dedup identity `` `${item.key}:${item.text}` ``. -/
def dedupKey (item : TranslationKey) : String := item.key ++ ":" ++ item.text

/-- The `strings.forEach` loop of `removeDuplicates`: `seen` is the `Set`
of identities already added (a list with the same membership), `acc` the
`uniqueStrings` array. -/
def removeDuplicatesGo (seen : List String) (acc : List TranslationKey) :
    List TranslationKey → List TranslationKey
  | [] => acc
  | item :: rest =>
    if seen.contains (dedupKey item) then removeDuplicatesGo seen acc rest
    else removeDuplicatesGo (dedupKey item :: seen) (acc ++ [item]) rest

def removeDuplicates (strings : List TranslationKey) : List TranslationKey :=
  removeDuplicatesGo [] [] strings

/-! ### The replacement engine (`replacer.ts`, class `TranslationReplacer`) -/

/-- The persisted dataset file as the replacer reads it (`fs.readJson`):
the `keys` field may be absent, which `data.keys || []` tolerates. -/
structure KeysFileData where
  keys : Option (List TranslationKey)
  deriving DecidableEq

/-- Outcome of the replacer's `loadTranslationKeys`: either the loaded key
list, or a `process.exit` with the given code. -/
inductive ReplacerLoad where
  | loaded (keys : List TranslationKey)
  | exitProcess (code : Nat)
  deriving DecidableEq

/-- `loadTranslationKeys` of `replacer.ts`: `data.keys || []` on a
successful read; on a read error it logs and calls `process.exit(1)`. -/
def replacerLoadTranslationKeys (readResult : Except String KeysFileData) : ReplacerLoad :=
  match readResult with
  | .ok data => .loaded (data.keys.getD [])
  | .error _ => .exitProcess 1

/-- Insertion-order map update, as JavaScript `Map.prototype.set` and plain
object assignment behave: an existing binding is updated in place, a new
binding is appended. -/
def recordSet (m : List (String × String)) (k v : String) : List (String × String) :=
  if m.any (fun p => p.1 == k) then m.map (fun p => if p.1 == k then (k, v) else p)
  else m ++ [(k, v)]

/-- The `textToKeyMap` built by `replaceInFile`:
`translationKeys.forEach(key => textToKeyMap.set(key.text, key.key))`
(a later entry with the same text overwrites an earlier one). -/
def textToKeyMap (translationKeys : List TranslationKey) : List (String × String) :=
  translationKeys.foldl (fun m k => recordSet m k.text k.key) []

def textToKey (translationKeys : List TranslationKey) (t : String) : Option String :=
  (textToKeyMap translationKeys).lookup t

/-- Replacer pattern 1, exception messages with object parameters:
`/throw new (\w+Exception)\(['"\x60]([^'"\x60]+)['"\x60](?:,\s*\{[^}]+\})?\)/g`. -/
def replacerRx1 : List RItem :=
  [rlit "throw new ", .cap [.repGe jsWordChar 1, .lit "Exception".data], rlitc ['('],
    rcls quoteChar, .cap [.repGe notQuote 1], rcls quoteChar,
    .opt [.lit [','], .repGe jsSpaceChar 0, .lit ['\x7b'], .repGe notCloseBrace 1,
      .lit ['\x7d']],
    rlitc [')']]

/-- Replacer pattern 2, simple exception messages:
`/throw new (\w+Exception)\(['"\x60]([^'"\x60]+)['"\x60]\)/g`. -/
def replacerRx2 : List RItem :=
  [rlit "throw new ", .cap [.repGe jsWordChar 1, .lit "Exception".data], rlitc ['('],
    rcls quoteChar, .cap [.repGe notQuote 1], rcls quoteChar, rlitc [')']]

/-- Replacer pattern 3, return object messages:
`/return\s*\{[^}]*message\s*:\s*['"\x60]([^'"\x60]+)['"\x60][^}]*\}/g`. -/
def replacerRx3 : List RItem :=
  [rlit "return", rrep jsSpaceChar 0, rlitc ['\x7b'], rrep notCloseBrace 0,
    rlit "message", rrep jsSpaceChar 0, rlitc [':'], rrep jsSpaceChar 0,
    rcls quoteChar, .cap [.repGe notQuote 1], rcls quoteChar, rrep notCloseBrace 0,
    rlitc ['\x7d']]

/-- Replacer pattern 4, message properties:
`/message\s*:\s*['"\x60]([^'"\x60]+)['"\x60]/g`. -/
def replacerRx4 : List RItem :=
  [rlit "message", rrep jsSpaceChar 0, rlitc [':'], rrep jsSpaceChar 0,
    rcls quoteChar, .cap [.repGe notQuote 1], rcls quoteChar]

/-- Replacer pattern 5, template literals:
`/errors\.push\(\x60([^\x60]+)\x60\)/g`. -/
def replacerRx5 : List RItem :=
  [rlitc ("errors.push(".data ++ [backtick]), .cap [.repGe notBacktick 1],
    rlitc [backtick, ')']]

/-- The inner non-global regex of replacer pattern 3's replacement:
`/message\s*:\s*['"\x60][^'"\x60]+['"\x60]/`. -/
def replacerRxInnerMessage : List RItem :=
  [rlit "message", rrep jsSpaceChar 0, rlitc [':'], rrep jsSpaceChar 0,
    rcls quoteChar, rrep notQuote 1, rcls quoteChar]

/-- Replacement for patterns 1 and 2:
`` `throw new ${exceptionType}(this.translate('${key}'))` `` when the
captured text has a key, the match unchanged otherwise. -/
def replacerRepl12 (lookup : String → Option String) (m : List Char)
    (caps : List (List Char)) : List Char :=
  let exceptionType := caps.getD 0 []
  let text := caps.getD 1 []
  match lookup (String.mk text) with
  | some key =>
    "throw new ".data ++ exceptionType ++ "(this.translate('".data ++ key.data ++ "'))".data
  | none => m

/-- Replacement for pattern 3: the first `message : '…'` span inside the
match is rewritten to `` `message: this.translate('${key}')` ``. -/
def replacerRepl3 (lookup : String → Option String) (m : List Char)
    (caps : List (List Char)) : List Char :=
  let text := caps.getD 0 []
  match lookup (String.mk text) with
  | some key =>
    regexReplaceFirst replacerRxInnerMessage
      ("message: this.translate('".data ++ key.data ++ "')".data) m
  | none => m

/-- Replacement for pattern 4: `` `message: this.translate('${key}')` ``. -/
def replacerRepl4 (lookup : String → Option String) (m : List Char)
    (caps : List (List Char)) : List Char :=
  let text := caps.getD 0 []
  match lookup (String.mk text) with
  | some key => "message: this.translate('".data ++ key.data ++ "')".data
  | none => m

/-- Replacement for pattern 5: `` `errors.push(this.translate('${key}'))` ``. -/
def replacerRepl5 (lookup : String → Option String) (m : List Char)
    (caps : List (List Char)) : List Char :=
  let text := caps.getD 0 []
  match lookup (String.mk text) with
  | some key => "errors.push(this.translate('".data ++ key.data ++ "'))".data
  | none => m

/-- The pure text transform of `replaceInFile`: the five global
replacements applied in order, threading the rewritten content and summing
the `result !== match` replacement count. -/
def replaceInFilePure (translationKeys : List TranslationKey) (content : String) :
    String × Nat :=
  let lookup := textToKey translationKeys
  let r1 := regexReplace replacerRx1 (replacerRepl12 lookup) content.data
  let r2 := regexReplace replacerRx2 (replacerRepl12 lookup) r1.1
  let r3 := regexReplace replacerRx3 (replacerRepl3 lookup) r2.1
  let r4 := regexReplace replacerRx4 (replacerRepl4 lookup) r3.1
  let r5 := regexReplace replacerRx5 (replacerRepl5 lookup) r4.1
  (String.mk r5.1, r1.2 + r2.2 + r3.2 + r4.2 + r5.2)

/-- `replaceInFile` as its observable result: the returned replacement
count and the list of `(path, content)` writes it issues.  Writes happen
only when at least one replacement was made and dry-run is off; the backup
(original content to `filePath + ".backup"`) is written first when backup
mode is on, then the rewritten file. -/
def replaceInFileRun (filePath : String) (translationKeys : List TranslationKey)
    (content : String) (backup dryRun : Bool) : Nat × List (String × String) :=
  let res := replaceInFilePure translationKeys content
  let writes :=
    if (res.2 != 0) && !dryRun then
      (if backup then [(filePath ++ ".backup", content)] else []) ++ [(filePath, res.1)]
    else []
  (res.2, writes)

/-! ### The template generator (`generator.ts`, class `TranslationGenerator`) -/

/-- The generator's `loadTranslationKeys` expects `{ keys: TranslationKey[] }`
and returns `{ keys: [] }` on a read error instead of throwing. -/
structure GenData where
  keys : List TranslationKey
  deriving DecidableEq

def generatorLoadTranslationKeys (readResult : Except String GenData) : GenData :=
  match readResult with
  | .ok data => data
  | .error _ => { keys := [] }

/-- Content of a file the generator writes: a JSON translation map
(serialization by `JSON.stringify(…, null, 2)` is the library boundary) or
the per-service README (whose text embeds a fresh timestamp). -/
inductive GenContent where
  | jsonMap (entries : List (String × String))
  | readme
  deriving DecidableEq

/-- `createTranslationObject`: `translations[key.key] = key.text` over the
service's keys, in order (plain-object insertion/overwrite semantics). -/
def createTranslationObject (keys : List TranslationKey) : List (String × String) :=
  keys.foldl (fun m k => recordSet m k.key k.text) []

structure ServiceTranslation where
  serviceName : String
  translations : List (String × String)
  totalKeys : Nat
  deriving DecidableEq

/-- The `serviceMap` grouping of `generator.ts`'s `groupByService`:
`key.file.split(path.sep)[0]` names the service; first-seen service order,
keys appended per service. -/
def groupKeysByService (keys : List TranslationKey) : List (String × List TranslationKey) :=
  keys.foldl
    (fun m k =>
      let serviceName := (splitPath k.file).headD ""
      if m.any (fun p => p.1 == serviceName) then
        m.map (fun p => if p.1 == serviceName then (p.1, p.2 ++ [k]) else p)
      else m ++ [(serviceName, [k])])
    []

def groupByServiceG (keys : List TranslationKey) : List ServiceTranslation :=
  (groupKeysByService keys).map fun p =>
    { serviceName := p.1
      translations := createTranslationObject p.2
      totalKeys := p.2.length }

/-- `createTemplateTranslations`: every value becomes
`` `TODO: Translate "${value}" to ${lang}` ``. -/
def createTemplateTranslations (translations : List (String × String)) (lang : String) :
    List (String × String) :=
  translations.map fun p => (p.1, "TODO: Translate \"" ++ p.2 ++ "\" to " ++ lang)

/-- The writes of `generateServiceTranslations`: `en.json` with the real
text is always written; one `<lang>.json` template per non-`en` requested
language is written only when the `template` option is on; the README is
always written last.  (`fs.ensureDir` is directory creation, not a file
write.) -/
def generateServiceWrites (st : ServiceTranslation) (languages : List String)
    (template : Bool) : List (String × GenContent) :=
  let translationsDir := st.serviceName ++ "/src/translations"
  [(translationsDir ++ "/en.json", GenContent.jsonMap st.translations)] ++
    (if template then
      (languages.filter (fun lang => lang != "en")).map fun lang =>
        (translationsDir ++ "/" ++ lang ++ ".json",
          GenContent.jsonMap (createTemplateTranslations st.translations lang))
    else []) ++
    [(translationsDir ++ "/README.md", GenContent.readme)]

/-- The writes of `generate`: group by service, write nothing when the
dataset has no keys, otherwise write every service's files. -/
def generateWrites (keys : List TranslationKey) (languages : List String)
    (template : Bool) : List (String × GenContent) :=
  let serviceTranslations := groupByServiceG keys
  if keys.length == 0 then []
  else serviceTranslations.flatMap fun st => generateServiceWrites st languages template

/-! ### Sample data used by the concrete theorems

`sampleExceptionKey` is the dataset entry of the repository's own replacer
test-suite; the two exception calls are the tested file contents (with and
without a second object-literal argument). -/

def sampleExceptionKey : TranslationKey :=
  { key := "AUTH.AUTH_SERVICE.EXCEPTION.USER_ALREADY_EXISTS"
    text := "User already exists with this email"
    type := "EXCEPTION"
    file := "auth/src/services/auth.service.ts"
    line := 10 }

def exceptionCallWithDataArg : String :=
  "throw new BadRequestException('User already exists with this email', \x7b userId: 123 \x7d);"

def exceptionCallSimple : String :=
  "throw new BadRequestException('User already exists with this email');"

/-- The identifier alphabet the specification requires of keys:
letters, digits, underscores, dots. -/
def keyChar (c : Char) : Bool := jsWordChar c || c == '.'

/-! ## The claims -/

set_option maxRecDepth 1000000

/-- **C1, counterexample.**  The claim says that for an exception
constructor call with a string literal whose text is in the dataset and a
second object-literal argument, the replacement engine leaves the second
argument untouched.  On the repository's own test input
`throw new BadRequestException('User already exists with this email', { userId: 123 })`
the engine's output does not contain the second argument at all (no
`userId` remains): the whole call, second argument included, is rewritten
to a single-argument `this.translate` call. -/
theorem claim_C1_counterexample :
    strIncludes "userId".data
        (replaceInFilePure [sampleExceptionKey] exceptionCallWithDataArg).1.data = false ∧
    (replaceInFilePure [sampleExceptionKey] exceptionCallWithDataArg).1 =
      "throw new BadRequestException(this.translate('AUTH.AUTH_SERVICE.EXCEPTION.USER_ALREADY_EXISTS'));" :=
  ⟨by rfl, by rfl⟩

/-- **C1, amended.**  The exception pattern of the replacement engine
matches the whole constructor call including any second object-literal
argument, and rewrites it to `throw new <Type>(this.translate('<key>'))`:
the literal argument is replaced by the translation lookup and the second
(data/context) argument is removed from the output, not preserved.  The
call with the data argument and the call without it produce the same
single-argument output, each counting one replacement. -/
theorem claim_C1_amended :
    replaceInFilePure [sampleExceptionKey] exceptionCallWithDataArg =
      ("throw new BadRequestException(this.translate('AUTH.AUTH_SERVICE.EXCEPTION.USER_ALREADY_EXISTS'));",
        1) ∧
    replaceInFilePure [sampleExceptionKey] exceptionCallSimple =
      ("throw new BadRequestException(this.translate('AUTH.AUTH_SERVICE.EXCEPTION.USER_ALREADY_EXISTS'));",
        1) :=
  ⟨by rfl, by rfl⟩

/-- **C2, counterexample.**  The claim says that a failed dataset read is
non-fatal for both the generation stage and the replacement stage.  The
replacement stage's `loadTranslationKeys` calls `process.exit(1)` on a
read error: it terminates the run instead of degrading to an empty
dataset. -/
theorem claim_C2_counterexample :
    replacerLoadTranslationKeys (Except.error "ENOENT: no such file or directory") =
      ReplacerLoad.exitProcess 1 ∧
    replacerLoadTranslationKeys (Except.error "ENOENT: no such file or directory") ≠
      ReplacerLoad.loaded [] :=
  ⟨rfl, by decide⟩

/-- **C2, amended.**  On a failed dataset read the generation stage
degrades to an empty dataset and produces no output writes, while the
replacement stage exits the process with code 1. -/
theorem claim_C2_amended :
    ∀ (e : String) (languages : List String) (template : Bool),
      generatorLoadTranslationKeys (Except.error e) = { keys := [] } ∧
      generateWrites (generatorLoadTranslationKeys (Except.error e)).keys languages template
        = [] ∧
      replacerLoadTranslationKeys (Except.error e) = ReplacerLoad.exitProcess 1 :=
  fun _ _ _ => ⟨rfl, rfl, rfl⟩

/-- **C5, counterexample.**  The claim says every generated key consists
only of letters, digits, underscores and dots, for all file paths
including those whose service-deriving segment contains other characters.
For `my-service/src/handler.ts` the service segment `my-service` is copied
into the key verbatim (uppercased), so the key contains a hyphen. -/
theorem claim_C5_counterexample :
    generateKey "Something bad" "EXCEPTION" "my-service/src/handler.ts" =
      "MY-SERVICE.HANDLER.EXCEPTION.SOMETHING_BAD" ∧
    ((generateKey "Something bad" "EXCEPTION" "my-service/src/handler.ts").data.all
      keyChar) = false :=
  ⟨by rfl, by rfl⟩

/-- **C8.**  With dry-run enabled, `replaceInFile` issues no writes at all
(no rewritten file, no `.backup` file) for any file, dataset and backup
setting, while the replacement count it computes and returns is the same
count a non-dry-run run would report. -/
theorem claim_C8 :
    ∀ (filePath : String) (translationKeys : List TranslationKey) (content : String)
      (backup : Bool),
      (replaceInFileRun filePath translationKeys content backup true).2 = [] ∧
      (replaceInFileRun filePath translationKeys content backup true).1 =
        (replaceInFileRun filePath translationKeys content backup false).1 := by
  intro filePath translationKeys content backup
  constructor
  · simp [replaceInFileRun]
  · simp [replaceInFileRun]

/-- **C9.**  Key generation is a deterministic pure function of
`(text, type, filePath)`: two invocations on equal triples return equal
key strings. -/
theorem claim_C9 :
    ∀ (text type filePath text' type' filePath' : String),
      text = text' → type = type' → filePath = filePath' →
      generateKey text type filePath = generateKey text' type' filePath' := by
  intro text type filePath text' type' filePath' h1 h2 h3
  rw [h1, h2, h3]

/-- **C9, witness.** -/
theorem claim_C9_witness :
    generateKey "User already exists with this email" "EXCEPTION"
        "auth/src/services/auth.service.ts" =
      generateKey "User already exists with this email" "EXCEPTION"
        "auth/src/services/auth.service.ts" :=
  claim_C9 _ _ _ _ _ _ rfl rfl rfl

/-- **C10.**  For a non-empty dataset: every service's `en.json` (mapping
key to text verbatim) is among the writes for every requested language
list and template setting — in particular also when `en` is not among the
requested languages; with the template option off the only writes are each
service's `en.json` and README; with it on, exactly the non-`en` requested
languages additionally get template files. -/
theorem claim_C10 :
    ∀ (keys : List TranslationKey) (languages : List String) (template : Bool),
      keys ≠ [] →
      (∀ st ∈ groupByServiceG keys,
        (st.serviceName ++ "/src/translations" ++ "/en.json",
            GenContent.jsonMap st.translations) ∈
          generateWrites keys languages template) ∧
      (template = false →
        generateWrites keys languages template =
          (groupByServiceG keys).flatMap fun st =>
            [(st.serviceName ++ "/src/translations" ++ "/en.json",
                GenContent.jsonMap st.translations),
              (st.serviceName ++ "/src/translations" ++ "/README.md", GenContent.readme)]) ∧
      (template = true →
        generateWrites keys languages template =
          (groupByServiceG keys).flatMap fun st =>
            (st.serviceName ++ "/src/translations" ++ "/en.json",
                GenContent.jsonMap st.translations) ::
              (((languages.filter fun lang => lang != "en").map fun lang =>
                (st.serviceName ++ "/src/translations" ++ "/" ++ lang ++ ".json",
                  GenContent.jsonMap (createTemplateTranslations st.translations lang))) ++
               [(st.serviceName ++ "/src/translations" ++ "/README.md",
                  GenContent.readme)])) := by
  intro keys languages template hne
  have hlen : (keys.length == 0) = false := by
    simp only [beq_eq_false_iff_ne, ne_eq, List.length_eq_zero]
    exact hne
  refine ⟨?_, ?_, ?_⟩
  · intro st hst
    rw [generateWrites]
    simp only [hlen, Bool.false_eq_true, if_false]
    exact List.mem_flatMap.mpr ⟨st, hst, by simp [generateServiceWrites]⟩
  · intro ht
    subst ht
    rw [generateWrites]
    simp [hlen, generateServiceWrites]
  · intro ht
    subst ht
    rw [generateWrites]
    simp [hlen, generateServiceWrites]

/-- **C10, witness.** -/
theorem claim_C10_witness :
    ([sampleExceptionKey] : List TranslationKey) ≠ [] ∧
    ∀ st ∈ groupByServiceG [sampleExceptionKey],
      (st.serviceName ++ "/src/translations" ++ "/en.json",
          GenContent.jsonMap st.translations) ∈
        generateWrites [sampleExceptionKey] ["fr"] false :=
  ⟨by decide, (claim_C10 [sampleExceptionKey] ["fr"] false (by decide)).1⟩

/-! ### C3: deduplication -/

/-- The deduplication contract as the specification words it: keep each
entry whose dedup identity `key + ":" + text` was not seen earlier —
first-seen entry wins, insertion order preserved. -/
def specFirstSeenDedup : List TranslationKey → List TranslationKey
  | [] => []
  | x :: xs =>
    x :: specFirstSeenDedup (xs.filter fun y => !(dedupKey y == dedupKey x))
  termination_by l => l.length
  decreasing_by
    simp only [List.length_cons]
    exact Nat.lt_succ_of_le (List.length_filter_le _ _)

theorem removeDuplicatesGo_eq (l : List TranslationKey) :
    ∀ (seen : List String) (acc : List TranslationKey),
      removeDuplicatesGo seen acc l =
        acc ++ specFirstSeenDedup (l.filter fun y => !(seen.contains (dedupKey y))) := by
  induction l with
  | nil => intro seen acc; simp [removeDuplicatesGo, specFirstSeenDedup]
  | cons x xs ih =>
    intro seen acc
    by_cases hx : seen.contains (dedupKey x)
    · have hmem : dedupKey x ∈ seen := by simpa using hx
      rw [removeDuplicatesGo, if_pos hx, ih]
      congr 2
      simp [List.filter_cons, hmem]
    · have hmem : dedupKey x ∉ seen := by simpa using hx
      rw [removeDuplicatesGo, if_neg hx, ih]
      have hfilter :
          (xs.filter fun y => !((dedupKey x :: seen).contains (dedupKey y))) =
            ((xs.filter fun y => !(seen.contains (dedupKey y))).filter
              fun y => !(dedupKey y == dedupKey x)) := by
        rw [List.filter_filter]
        apply List.filter_congr
        intro y _
        simp only [List.contains_cons, Bool.not_or]
      rw [hfilter]
      have hcons :
          ((x :: xs).filter fun y => !(seen.contains (dedupKey y))) =
            x :: (xs.filter fun y => !(seen.contains (dedupKey y))) := by
        simp [List.filter_cons, hmem]
      rw [hcons, specFirstSeenDedup]
      simp

theorem specFirstSeenDedup_sublist :
    ∀ l : List TranslationKey, (specFirstSeenDedup l).Sublist l := by
  intro l
  induction l using specFirstSeenDedup.induct with
  | case1 => simp [specFirstSeenDedup]
  | case2 x xs ih =>
    rw [specFirstSeenDedup]
    exact List.Sublist.cons₂ x (ih.trans (List.filter_sublist _))

theorem specFirstSeenDedup_map_nodup :
    ∀ l : List TranslationKey, ((specFirstSeenDedup l).map dedupKey).Nodup := by
  intro l
  induction l using specFirstSeenDedup.induct with
  | case1 => simp [specFirstSeenDedup]
  | case2 x xs ih =>
    rw [specFirstSeenDedup]
    refine List.Nodup.cons ?_ ih
    intro hmem
    obtain ⟨y, hy, hdk⟩ := List.mem_map.mp hmem
    have hyf := (specFirstSeenDedup_sublist _).subset hy
    have := (List.mem_filter.mp hyf).2
    simp only [Bool.not_eq_eq_eq_not, Bool.not_true, beq_eq_false_iff_ne, ne_eq] at this
    exact this hdk

theorem specFirstSeenDedup_complete :
    ∀ l : List TranslationKey, ∀ x ∈ l,
      dedupKey x ∈ (specFirstSeenDedup l).map dedupKey := by
  intro l
  induction l using specFirstSeenDedup.induct with
  | case1 => intro x hx; simp at hx
  | case2 a xs ih =>
    intro x hx
    rw [specFirstSeenDedup]
    rcases List.mem_cons.mp hx with h | h
    · subst h; simp
    · by_cases hdk : dedupKey x = dedupKey a
      · simp [hdk]
      · have hxf : x ∈ xs.filter fun y => !(dedupKey y == dedupKey a) := by
          refine List.mem_filter.mpr ⟨h, ?_⟩
          simp [hdk]
        have := ih x hxf
        simp only [List.map_cons, List.mem_cons]
        exact Or.inr this

/-- **C3.**  `removeDuplicates` equals the specification's first-seen
deduplication keyed on the exact concatenation `key + ":" + text`: its
output is a subsequence of the input (insertion order preserved, not
sorted), contains no two entries with the same dedup identity, and
contains the identity of every input entry — exactly one entry per
distinct `(key, text)` pair under the stated identity, the first-seen one. -/
theorem claim_C3 :
    ∀ strings : List TranslationKey,
      removeDuplicates strings = specFirstSeenDedup strings ∧
      (removeDuplicates strings).Sublist strings ∧
      ((removeDuplicates strings).map dedupKey).Nodup ∧
      ∀ item ∈ strings, dedupKey item ∈ (removeDuplicates strings).map dedupKey := by
  intro strings
  have heq : removeDuplicates strings = specFirstSeenDedup strings := by
    rw [removeDuplicates, removeDuplicatesGo_eq]
    simp
  refine ⟨heq, ?_, ?_, ?_⟩
  · rw [heq]; exact specFirstSeenDedup_sublist strings
  · rw [heq]; exact specFirstSeenDedup_map_nodup strings
  · rw [heq]; exact specFirstSeenDedup_complete strings

/-! ### C7: the basic extraction scenario -/

def scenarioPath : String := "auth/src/services/auth.service.ts"

def scenarioContent : String := "return \x7b message: 'Validation failed' \x7d;"

/-- **C7.**  Extracting `return { message: 'Validation failed' };` at
`auth/src/services/auth.service.ts` yields an entry with text
`Validation failed`, type `RETURN_MESSAGE` and key
`AUTH.AUTH_SERVICE.RETURN_MESSAGE.VALIDATION_FAILED`, for every output
sanitizer that leaves the text `Validation failed` unchanged (the
configured sanitizer does, whether or not sanitization is enabled, since
the text contains none of its suspicious patterns). -/
theorem claim_C7 :
    ∀ sanitize : String → String,
      sanitize "Validation failed" = "Validation failed" →
      ∃ e ∈ extractFromFileContent sanitize sortedDefaultPatterns scenarioPath
          scenarioContent,
        e.text = "Validation failed" ∧ e.type = "RETURN_MESSAGE" ∧
        e.key = "AUTH.AUTH_SERVICE.RETURN_MESSAGE.VALIDATION_FAILED" := by
  intro sanitize hs
  refine ⟨{ key := "AUTH.AUTH_SERVICE.RETURN_MESSAGE.VALIDATION_FAILED"
            text := sanitize "Validation failed"
            type := "RETURN_MESSAGE"
            file := scenarioPath
            line := 1
            context := none
            priority := some "medium"
            category := some "auth" }, ?_, by simp [hs]⟩
  show _ ∈ extractFromFileContent sanitize sortedDefaultPatterns scenarioPath scenarioContent
  have hout : extractFromFileContent sanitize sortedDefaultPatterns scenarioPath
      scenarioContent =
      [{ key := "AUTH.AUTH_SERVICE.RETURN_MESSAGE.VALIDATION_FAILED"
         text := sanitize "Validation failed"
         type := "RETURN_MESSAGE"
         file := scenarioPath
         line := 1
         context := none
         priority := some "medium"
         category := some "auth" },
       { key := "AUTH.AUTH_SERVICE.MESSAGE_PROPERTY.VALIDATION_FAILED"
         text := sanitize "Validation failed"
         type := "MESSAGE_PROPERTY"
         file := scenarioPath
         line := 1
         context := none
         priority := some "medium"
         category := some "auth" }] := by rfl
  rw [hout]
  exact List.mem_cons_self _ _

/-- **C7, witness.** -/
theorem claim_C7_witness :
    (fun s : String => s) "Validation failed" = "Validation failed" ∧
    ∃ e ∈ extractFromFileContent (fun s : String => s) sortedDefaultPatterns scenarioPath
        scenarioContent,
      e.text = "Validation failed" ∧ e.type = "RETURN_MESSAGE" ∧
      e.key = "AUTH.AUTH_SERVICE.RETURN_MESSAGE.VALIDATION_FAILED" :=
  ⟨rfl, claim_C7 (fun s => s) rfl⟩

/-! ### C6: candidate length bounds -/

def boundary3Content : String := "message: 'abc'"

def boundary2Content : String := "message: 'ab'"

def boundary500Content : String :=
  String.mk ("message: '".data ++ List.replicate 500 'a' ++ ['\''])

def boundary501Content : String :=
  String.mk ("message: '".data ++ List.replicate 501 'a' ++ ['\''])

/-- **C6.**  Every extracted entry arises from a pattern match whose
candidate text (`match[1] || match[2] || match[0]`) has between 3 and 500
characters — shorter or longer candidates never produce entries — and at
the boundaries: a 3-character candidate is retained, a 2-character one is
discarded, a 500-character candidate is retained, a 501-character one is
discarded. -/
theorem claim_C6 :
    (∀ (sanitize : String → String) (patterns : List EPattern) (filePath content : String),
      ∀ e ∈ extractFromFileContent sanitize patterns filePath content,
        ∃ p ∈ patterns, ∃ mt ∈ allMatches p.items content.data,
          3 ≤ (pickText mt.2.1 mt.2.2).length ∧ (pickText mt.2.1 mt.2.2).length ≤ 500 ∧
          e = extractEntry sanitize filePath content.data p mt.1 mt.2.1 mt.2.2) ∧
    ((extractFromFileContent (fun s => s) sortedDefaultPatterns "auth/src/a.ts"
        boundary3Content).map (fun e => e.text) = ["abc"]) ∧
    (extractFromFileContent (fun s => s) sortedDefaultPatterns "auth/src/a.ts"
        boundary2Content = []) ∧
    ((extractFromFileContent (fun s => s) sortedDefaultPatterns "auth/src/a.ts"
        boundary500Content).map (fun e => e.text.length) = [500]) ∧
    (extractFromFileContent (fun s => s) sortedDefaultPatterns "auth/src/a.ts"
        boundary501Content = []) := by
  refine ⟨?_, by rfl, by rfl, by rfl, by rfl⟩
  intro sanitize patterns filePath content e he
  rw [extractFromFileContent] at he
  obtain ⟨p, hp, hseg⟩ := List.mem_flatMap.mp he
  rw [patternSegment] at hseg
  obtain ⟨mt, hmt, hsome⟩ := List.mem_filterMap.mp hseg
  refine ⟨p, hp, mt, hmt, ?_⟩
  by_cases hcond :
      ((pickText mt.2.1 mt.2.2).length < 3 || 500 < (pickText mt.2.1 mt.2.2).length) = true
  · rw [if_pos hcond] at hsome
    exact absurd hsome (by simp)
  · rw [if_neg hcond] at hsome
    simp only [Bool.or_eq_true, decide_eq_true_eq, not_or, Nat.not_lt] at hcond
    exact ⟨hcond.1, hcond.2, (Option.some.injEq _ _ ▸ hsome).symm⟩

/-- **C6, witness.** -/
theorem claim_C6_witness :
    ∃ p ∈ sortedDefaultPatterns, ∃ mt ∈ allMatches p.items boundary3Content.data,
      3 ≤ (pickText mt.2.1 mt.2.2).length ∧ (pickText mt.2.1 mt.2.2).length ≤ 500 ∧
      ({ key := "AUTH.A.MESSAGE_PROPERTY.ABC"
         text := "abc"
         type := "MESSAGE_PROPERTY"
         file := "auth/src/a.ts"
         line := 1
         context := none
         priority := some "low"
         category := some "auth" } : TranslationKey) =
        extractEntry (fun s => s) "auth/src/a.ts" boundary3Content.data p mt.1 mt.2.1
          mt.2.2 :=
  claim_C6.1 (fun s => s) sortedDefaultPatterns "auth/src/a.ts" boundary3Content _
    (by rw [show extractFromFileContent (fun s => s) sortedDefaultPatterns "auth/src/a.ts"
          boundary3Content =
          [{ key := "AUTH.A.MESSAGE_PROPERTY.ABC"
             text := "abc"
             type := "MESSAGE_PROPERTY"
             file := "auth/src/a.ts"
             line := 1
             context := none
             priority := some "low"
             category := some "auth" }] from rfl]
        exact List.mem_cons_self _ _)

/-! ### C5, amended: key legality under word-character path segments

`Char.toUpper` sends word characters to word characters; the collapse of
whitespace runs emits only underscores and non-whitespace input
characters; hence the normalized text is always key-legal, and the whole
key is key-legal whenever the path-derived segments and the type tag
are. -/


theorem char_toNat_ofNat {n : Nat} (h : n.isValidChar) : (Char.ofNat n).toNat = n := by
  simp [Char.ofNat, h, Char.ofNatAux, Char.toNat, UInt32.toNat, BitVec.toNat_ofNatLt]

theorem char_isUpper_of {x : Char} (h1 : 65 ≤ x.toNat) (h2 : x.toNat ≤ 90) :
    x.isUpper = true := by
  simp only [Char.isUpper, UInt32.le_def, BitVec.le_def, Bool.and_eq_true, decide_eq_true_eq]
  simp only [Char.toNat, UInt32.toNat] at h1 h2
  constructor
  · show (UInt32.toBitVec 65).toNat ≤ _
    simpa using h1
  · show _ ≤ (UInt32.toBitVec 90).toNat
    simpa using h2

theorem jsWordChar_toUpper {c : Char} (h : jsWordChar c = true) :
    jsWordChar c.toUpper = true := by
  by_cases hc : 97 ≤ c.toNat ∧ c.toNat ≤ 122
  · have hval : (c.toNat - 32).isValidChar := Or.inl (by omega)
    have hup : c.toUpper = Char.ofNat (c.toNat - 32) := by
      simp [Char.toUpper, hc.1, hc.2]
    have htn : (Char.ofNat (c.toNat - 32)).toNat = c.toNat - 32 := char_toNat_ofNat hval
    have hupper : (Char.ofNat (c.toNat - 32)).isUpper = true :=
      char_isUpper_of (by rw [htn]; omega) (by rw [htn]; omega)
    rw [hup]
    simp [jsWordChar, Char.isAlpha, hupper]
  · have heq : c.toUpper = c := by
      simp only [Char.toUpper]
      rw [if_neg]
      exact hc
    rw [heq]
    exact h

theorem mem_collapseWsAux {c : Char} :
    ∀ (l : List Char) (b : Bool), c ∈ collapseWsAux b l →
      c = '_' ∨ (c ∈ l ∧ jsSpaceChar c = false) := by
  intro l
  induction l with
  | nil =>
    intro b h
    simp [collapseWsAux] at h
  | cons x xs ih =>
    intro b h
    rw [collapseWsAux] at h
    by_cases hx : jsSpaceChar x = true
    · rw [if_pos hx] at h
      have h2 : c = '_' ∨ c ∈ collapseWsAux true xs := by
        cases b with
        | true =>
          simp only [if_pos rfl] at h
          exact Or.inr h
        | false =>
          simp at h
          rcases h with h | h
          · exact Or.inl h
          · exact Or.inr h
      rcases h2 with h2 | h2
      · exact Or.inl h2
      · rcases ih true h2 with h3 | ⟨h3, h4⟩
        · exact Or.inl h3
        · exact Or.inr ⟨List.mem_cons_of_mem _ h3, h4⟩
    · rw [if_neg hx] at h
      rcases List.mem_cons.mp h with h | h
      · subst h
        exact Or.inr ⟨List.mem_cons_self _ _, by simpa using hx⟩
      · rcases ih false h with h3 | ⟨h3, h4⟩
        · exact Or.inl h3
        · exact Or.inr ⟨List.mem_cons_of_mem _ h3, h4⟩

theorem cleanTextOf_chars (text : String) :
    ∀ c ∈ (cleanTextOf text).data, jsWordChar c = true := by
  intro c hc
  simp only [cleanTextOf, upperStr] at hc
  obtain ⟨c', hc', rfl⟩ := List.mem_map.mp hc
  apply jsWordChar_toUpper
  rcases mem_collapseWsAux _ _ hc' with h | ⟨hm, hs⟩
  · subst h
    decide
  · have h2 := (List.mem_filter.mp hm).2
    simp only [hs, Bool.or_false] at h2
    exact h2

/-- **C5, amended.**  Whenever the derived service segment and derived
file base name consist only of word characters (letters, digits,
underscore) and the type tag consists of key-legal characters — true of
the five built-in type tags — the generated key consists only of letters,
digits, underscores and dots; the normalized-text part is always legal,
for every input text.  (The counterexample shows the restriction on the
path-derived segments is necessary: their characters are copied into the
key verbatim.) -/
theorem claim_C5_amended :
    ∀ (text type filePath : String),
      (∀ c ∈ (serviceNameOf filePath).data, jsWordChar c = true) →
      (∀ c ∈ (fileBaseOf filePath).data, jsWordChar c = true) →
      (∀ c ∈ type.data, keyChar c = true) →
      ∀ c ∈ (generateKey text type filePath).data, keyChar c = true := by
  intro text type filePath hsvc hfile htype c hc
  rw [generateKey] at hc
  simp only [String.data_append] at hc
  have hword : ∀ d : Char, jsWordChar d = true → keyChar d = true := by
    intro d hd
    simp [keyChar, hd]
  have hupper : ∀ (s : String), (∀ d ∈ s.data, jsWordChar d = true) →
      ∀ d ∈ (upperStr s).data, keyChar d = true := by
    intro s hs d hd
    simp only [upperStr] at hd
    obtain ⟨d', hd', rfl⟩ := List.mem_map.mp hd
    exact hword _ (jsWordChar_toUpper (hs d' hd'))
  simp only [List.mem_append] at hc
  rcases hc with (((((hc | hc) | hc) | hc) | hc) | hc) | hc
  · exact hupper _ hsvc c hc
  · have : c = '.' := by simpa using hc
    subst this
    decide
  · exact hupper _ hfile c hc
  · have : c = '.' := by simpa using hc
    subst this
    decide
  · exact htype c hc
  · have : c = '.' := by simpa using hc
    subst this
    decide
  · exact hword c (cleanTextOf_chars text c hc)

/-- **C5, amended, witness.** -/
theorem claim_C5_amended_witness :
    (∀ c ∈ (serviceNameOf "auth/src/services/auth.service.ts").data, jsWordChar c = true) ∧
    (∀ c ∈ (fileBaseOf "auth/src/services/auth.service.ts").data, jsWordChar c = true) ∧
    (∀ c ∈ ("EXCEPTION" : String).data, keyChar c = true) ∧
    ∀ c ∈ (generateKey "User not found" "EXCEPTION"
        "auth/src/services/auth.service.ts").data, keyChar c = true :=
  ⟨by decide, by decide, by decide,
    claim_C5_amended "User not found" "EXCEPTION" "auth/src/services/auth.service.ts"
      (by decide) (by decide) (by decide)⟩

/-! ### C4: ordering of the extraction output

The match positions returned by the `exec` loop are nondecreasing, hence
so are the line numbers of one pattern's entries; entries of different
patterns appear in pattern order because the pattern loop is the outer
loop of `extractFromFile`. -/

def orderingDemoContent : String :=
  "const a = \x7b message: 'hello world msg' \x7d;\nthrow new FooException('later thrown text');"

/-- **C4, counterexample.**  The claim says a match at an earlier position
precedes a match at a later position even when the later match comes from
a higher-priority pattern.  In this file the `MESSAGE_PROPERTY` match is
on line 1 and the `EXCEPTION` match on line 2, yet the output lists the
line-2 `EXCEPTION` entry first: within a file the order is
pattern-priority-major, not position-major. -/
theorem claim_C4_counterexample :
    (extractFromFileContent (fun s => s) sortedDefaultPatterns "auth/src/a.ts"
        orderingDemoContent).map (fun e => (e.type, e.line)) =
      [("EXCEPTION", 2), ("MESSAGE_PROPERTY", 1)] := by rfl


theorem allMatchesAux_base_le (pat : List RItem) :
    ∀ (fuel : Nat) (s : List Char) (base : Nat),
      ∀ mt ∈ allMatchesAux pat fuel s base, base ≤ mt.1 := by
  intro fuel
  induction fuel with
  | zero => intro s base mt hmt; simp [allMatchesAux] at hmt
  | succ fuel ih =>
    intro s base mt hmt
    rw [allMatchesAux] at hmt
    cases hsf : searchFrom pat s 0 with
    | none => rw [hsf] at hmt; simp at hmt
    | some r =>
      rw [hsf] at hmt
      obtain ⟨off, m, caps⟩ := r
      rcases List.mem_cons.mp hmt with h | h
      · subst h; omega
      · have := ih _ _ mt h
        omega

theorem allMatchesAux_pairwise (pat : List RItem) :
    ∀ (fuel : Nat) (s : List Char) (base : Nat),
      (allMatchesAux pat fuel s base).Pairwise (fun a b => a.1 ≤ b.1) := by
  intro fuel
  induction fuel with
  | zero => intro s base; simp [allMatchesAux]
  | succ fuel ih =>
    intro s base
    rw [allMatchesAux]
    cases hsf : searchFrom pat s 0 with
    | none => simp
    | some r =>
      obtain ⟨off, m, caps⟩ := r
      refine List.Pairwise.cons ?_ (ih _ _)
      intro b hb
      have := allMatchesAux_base_le pat _ _ _ b hb
      simp
      omega

theorem pairwise_filterMap_of {α β : Type} {R : α → α → Prop} {S : β → β → Prop}
    (f : α → Option β) :
    ∀ {l : List α}, l.Pairwise R →
      (∀ a b x y, R a b → f a = some x → f b = some y → S x y) →
      (l.filterMap f).Pairwise S := by
  intro l hl hf
  induction l with
  | nil => simp
  | cons a l ih =>
    rw [List.filterMap_cons]
    have ha := List.pairwise_cons.mp hl
    cases hfa : f a with
    | none => exact ih ha.2
    | some x =>
      refine List.Pairwise.cons ?_ (ih ha.2)
      intro y hy
      obtain ⟨b, hb, hfb⟩ := List.mem_filterMap.mp hy
      exact hf a b x y (ha.1 b hb) hfa hfb

theorem countLines_mono (content : List Char) {i j : Nat} (h : i ≤ j) :
    countLines content i ≤ countLines content j := by
  unfold countLines
  have hsub : (content.take i).Sublist (content.take j) := by
    have : content.take i = (content.take j).take i := by
      rw [List.take_take, Nat.min_eq_left h]
    rw [this]
    exact List.take_sublist _ _
  have := hsub.count_le '\n'
  omega

theorem patternSegment_type (sanitize : String → String) (filePath : String)
    (content : List Char) (p : EPattern) :
    ∀ e ∈ patternSegment sanitize filePath content p, e.type = p.type := by
  intro e he
  rw [patternSegment] at he
  obtain ⟨mt, _, hsome⟩ := List.mem_filterMap.mp he
  by_cases hcond :
      ((pickText mt.2.1 mt.2.2).length < 3 || 500 < (pickText mt.2.1 mt.2.2).length) = true
  · rw [if_pos hcond] at hsome
    exact absurd hsome (by simp)
  · rw [if_neg hcond] at hsome
    have : extractEntry sanitize filePath content p mt.1 mt.2.1 mt.2.2 = e :=
      Option.some.injEq _ _ ▸ hsome
    subst this
    rfl

theorem patternSegment_line_pairwise (sanitize : String → String) (filePath : String)
    (content : List Char) (p : EPattern) :
    (patternSegment sanitize filePath content p).Pairwise
      (fun a b => a.line ≤ b.line) := by
  rw [patternSegment]
  refine pairwise_filterMap_of _ (allMatchesAux_pairwise p.items _ _ _) ?_
  intro a b x y hR hfa hfb
  by_cases hca :
      ((pickText a.2.1 a.2.2).length < 3 || 500 < (pickText a.2.1 a.2.2).length) = true
  · rw [if_pos hca] at hfa
    exact absurd hfa (by simp)
  by_cases hcb :
      ((pickText b.2.1 b.2.2).length < 3 || 500 < (pickText b.2.1 b.2.2).length) = true
  · rw [if_pos hcb] at hfb
    exact absurd hfb (by simp)
  rw [if_neg hca] at hfa
  rw [if_neg hcb] at hfb
  have hx : extractEntry sanitize filePath content p a.1 a.2.1 a.2.2 = x :=
    Option.some.injEq _ _ ▸ hfa
  have hy : extractEntry sanitize filePath content p b.1 b.2.1 b.2.2 = y :=
    Option.some.injEq _ _ ▸ hfb
  subst hx
  subst hy
  show countLines content a.1 ≤ countLines content b.1
  exact countLines_mono content hR

/-- The priority of the default pattern carrying each type tag. -/
def typePriorityRank (t : String) : Nat :=
  if t == "EXCEPTION" then 1
  else if t == "RETURN_MESSAGE" then 2
  else if t == "TEMPLATE_LITERAL" then 3
  else if t == "MESSAGE_PROPERTY" then 4
  else if t == "CONCATENATED_STRING" then 5
  else 6

theorem pairwise_flatMap_segments (sanitize : String → String) (filePath : String)
    (content : List Char) :
    ∀ ps : List EPattern,
      ps.Pairwise (fun p q =>
        typePriorityRank p.type ≤ typePriorityRank q.type ∧ p.type ≠ q.type) →
      (ps.flatMap (patternSegment sanitize filePath content)).Pairwise
        (fun a b => typePriorityRank a.type ≤ typePriorityRank b.type ∧
          (a.type = b.type → a.line ≤ b.line)) := by
  intro ps hps
  induction ps with
  | nil => simp
  | cons p ps ih =>
    have hp := List.pairwise_cons.mp hps
    rw [List.flatMap_cons]
    rw [List.pairwise_append]
    refine ⟨?_, ih hp.2, ?_⟩
    · refine List.Pairwise.imp_of_mem ?_ (patternSegment_line_pairwise sanitize filePath content p)
      intro a b ha hb hline
      have hta := patternSegment_type sanitize filePath content p a ha
      have htb := patternSegment_type sanitize filePath content p b hb
      rw [hta, htb]
      exact ⟨Nat.le_refl _, fun _ => hline⟩
    · intro a ha b hb
      obtain ⟨q, hq, hbq⟩ := List.mem_flatMap.mp hb
      have hta := patternSegment_type sanitize filePath content p a ha
      have htb := patternSegment_type sanitize filePath content q b hbq
      have hrel := hp.1 q hq
      rw [hta, htb]
      exact ⟨hrel.1, fun hcontra => absurd hcontra hrel.2⟩

/-- **C4, amended.**  Within one file, the dataset order is pattern
priority order first (the `patterns.forEach` loop is the outer loop of
`extractFromFile`), then match position order within each pattern — not
match position order with priority used only as a tie-break: for the
default patterns sorted by priority, any two entries of the output are
ordered by the priority rank of their pattern type, and two entries of
the same type are ordered by line number.  Across files the dataset
remains in file enumeration order: the batch extraction of a
concatenation of file lists is the concatenation of their batch
extractions. -/
theorem claim_C4_amended :
    (∀ (sanitize : String → String) (filePath content : String),
      (extractFromFileContent sanitize sortedDefaultPatterns filePath content).Pairwise
        (fun a b => typePriorityRank a.type ≤ typePriorityRank b.type ∧
          (a.type = b.type → a.line ≤ b.line))) ∧
    ∀ (sanitize : String → String) (patterns : List EPattern)
      (files₁ files₂ : List (String × String)),
      extractBatchContent sanitize patterns (files₁ ++ files₂) =
        extractBatchContent sanitize patterns files₁ ++
          extractBatchContent sanitize patterns files₂ := by
  constructor
  · intro sanitize filePath content
    rw [extractFromFileContent]
    refine pairwise_flatMap_segments sanitize filePath content.data sortedDefaultPatterns ?_
    decide
  · intro sanitize patterns files₁ files₂
    rw [extractBatchContent, List.flatMap_append]
    rfl

end I18n
